import Mathlib

/-!
Verification of the Kalman filter in `KalmanFilter.py` (class `KalmanFilter`,
methods `__init__` and `update`).

NumPy arrays are embedded as rational-valued lists: a 1-D array is a
`List ℚ` and a 2-D array is a `List (List ℚ)` (row-major).  Arithmetic is
exact (ℚ in place of IEEE floats).  Each NumPy operation used by the source
(`np.dot` on a 2-D × 1-D pair, `np.matmul`, `+`/`-` with broadcasting,
`np.eye`, `.T`, `numpy.linalg.inv`) is modelled by a function that returns
`none` exactly where NumPy would raise (shape mismatch, singular matrix).
`update` threads the object state through each assignment statement of the
Python method, so a raised exception leaves behind exactly the attributes
the Python object would have at that point.
-/

open Matrix

abbrev Vec : Type := List ℚ

abbrev Mat : Type := List (List ℚ)

/-- Number of rows of a 2-D array. -/
def nrows (M : Mat) : Nat := M.length

/-- Number of columns of a 2-D array (length of its first row). -/
def ncols (M : Mat) : Nat := (M.headD []).length

/-- Entry `M[i][j]`, with 0 as out-of-range junk value. -/
def getE (M : Mat) (i j : Nat) : ℚ := (M.getD i []).getD j 0

/-- Entry `v[i]`, with 0 as out-of-range junk value. -/
def getV (v : Vec) (i : Nat) : ℚ := v.getD i 0

/-- Build an `r × c` matrix from an entry function. -/
def mkMat (r c : Nat) (f : Nat → Nat → ℚ) : Mat :=
  (List.range r).map fun i => (List.range c).map fun j => f i j

/-- A rectangular (well-formed) 2-D array: every row has the same length. -/
def RectMat (M : Mat) : Prop := ∀ row ∈ M, row.length = ncols M

/-- `M.T` : transpose. -/
def transposeL (M : Mat) : Mat := mkMat (ncols M) (nrows M) fun i j => getE M j i

/-- `np.matmul` on two 2-D arrays: defined iff inner dimensions agree. -/
def matmulL (A B : Mat) : Option Mat :=
  if ncols A = nrows B then
    some (mkMat (nrows A) (ncols B) fun i j =>
      ∑ t in Finset.range (ncols A), getE A i t * getE B t j)
  else none

/-- NumPy broadcast of two dimension sizes: equal, or either equal to 1. -/
def bdim (a b : Nat) : Option Nat :=
  if a = b then some a else if a = 1 then some b else if b = 1 then some a else none

/-- Index into a possibly broadcast axis of extent `d`. -/
def bIdx (d i : Nat) : Nat := if d = 1 then 0 else i

/-- Broadcast-aware read of entry `(i, j)`. -/
def bGet (M : Mat) (i j : Nat) : ℚ := getE M (bIdx (nrows M) i) (bIdx (ncols M) j)

/-- `+` on two 2-D arrays with NumPy broadcasting. -/
def matAddL (A B : Mat) : Option Mat :=
  match bdim (nrows A) (nrows B), bdim (ncols A) (ncols B) with
  | some r, some c => some (mkMat r c fun i j => bGet A i j + bGet B i j)
  | _, _ => none

/-- `-` on two 2-D arrays with NumPy broadcasting. -/
def matSubL (A B : Mat) : Option Mat :=
  match bdim (nrows A) (nrows B), bdim (ncols A) (ncols B) with
  | some r, some c => some (mkMat r c fun i j => bGet A i j - bGet B i j)
  | _, _ => none

/-- `np.dot` of a 2-D array and a 1-D array (matrix–vector product). -/
def dotMV (A : Mat) (x : Vec) : Option Vec :=
  if ncols A = x.length then
    some ((List.range (nrows A)).map fun i =>
      ∑ j in Finset.range x.length, getE A i j * getV x j)
  else none

/-- `+` on two 1-D arrays with NumPy broadcasting. -/
def vecAddB (x y : Vec) : Option Vec :=
  match bdim x.length y.length with
  | some n => some ((List.range n).map fun i =>
      getV x (bIdx x.length i) + getV y (bIdx y.length i))
  | none => none

/-- `-` on two 1-D arrays with NumPy broadcasting. -/
def vecSubB (x y : Vec) : Option Vec :=
  match bdim x.length y.length with
  | some n => some ((List.range n).map fun i =>
      getV x (bIdx x.length i) - getV y (bIdx y.length i))
  | none => none

/-- `np.eye n`. -/
def eyeL (n : Nat) : Mat := mkMat n n fun i j => if i = j then 1 else 0

/-- Laplace expansion of the determinant along row 0, with the matrix size
as structural fuel so that the kernel can evaluate it. -/
def detAux : Nat → Mat → ℚ
  | 0, _ => 1
  | n + 1, L =>
    ∑ j in Finset.range (n + 1),
      (-1 : ℚ) ^ j * getE L 0 j * detAux n (L.tail.map fun row => row.eraseIdx j)

/-- Determinant of a (square) 2-D array. -/
def detL (L : Mat) : ℚ := detAux (nrows L) L

/-- The `i`-th standard basis row vector of length `n`. -/
def unitRow (n i : Nat) : Vec := (List.range n).map fun t => if t = i then 1 else 0

/-- `numpy.linalg.inv`: defined iff the array is square and nonsingular.
Computed as `det⁻¹ • adjugate`, with each adjugate entry a determinant of
the matrix with one row replaced by a standard basis vector. -/
def npinv (L : Mat) : Option Mat :=
  if nrows L = ncols L then
    if detL L = 0 then none
    else
      some (mkMat (nrows L) (nrows L) fun i j =>
        (detL L)⁻¹ * detL (L.set j (unitRow (nrows L) i)))
  else none

/-- The attribute state of a `KalmanFilter` object.  Attributes that a
freshly constructed object does not yet carry (`last_x`, `last_P`, `x`,
`P`, and those first assigned inside `update`: `measureState`, `control`,
`S`, `K`, `y`) are modelled as `Option`s, `none` meaning `None`/unset. -/
structure KalmanFilter where
  A : Mat
  B : Mat
  H : Mat
  Q : Mat
  R : Mat
  last_x : Option Vec
  last_P : Option Mat
  x : Option Vec
  P : Option Mat
  cur_x : Vec
  cur_P : Mat
  measureState : Option Vec
  control : Option Vec
  S : Option Mat
  K : Option Mat
  y : Option Vec
deriving DecidableEq

namespace KalmanFilter

/-- `KalmanFilter.__init__(A, B, H, Q, R, cur_x, cur_P)`: stores copies of
the five model matrices and the initial state, sets `last_x`, `last_P`,
`x`, `P` to `None`, and performs no validation of any kind. -/
def init (A B H Q R : Mat) (cur_x : Vec) (cur_P : Mat) : KalmanFilter :=
  { A := A, B := B, H := H, Q := Q, R := R,
    last_x := none, last_P := none, x := none, P := none,
    cur_x := cur_x, cur_P := cur_P,
    measureState := none, control := none, S := none, K := none, y := none }

end KalmanFilter

/-- Result of one `update` call: `ok kf` is normal return with final object
state `kf`; `err kf` means a NumPy exception escaped the method, leaving
the object in state `kf` (the assignments made before the raise persist). -/
inductive StepResult where
  | ok (kf : KalmanFilter)
  | err (kf : KalmanFilter)
deriving DecidableEq

/-- Run the continuation on a successful NumPy result, or abort the call
with the object state at the point of the raised exception. -/
def stepO {α : Type} (o : Option α) (onErr : KalmanFilter) (f : α → StepResult) :
    StepResult :=
  match o with
  | none => .err onErr
  | some a => f a

/-- Did the call return normally? -/
def StepResult.isOk : StepResult → Bool
  | .ok _ => true
  | .err _ => false

/-- The object state after the call, whether it returned or raised. -/
def StepResult.state : StepResult → KalmanFilter
  | .ok kf => kf
  | .err kf => kf

/-- `self.x = np.dot(self.A, self.cur_x) + np.dot(self.B, self.control)`
(right-hand side only). -/
def predictX (A B : Mat) (x u : Vec) : Option Vec :=
  (dotMV A x).bind fun ax => (dotMV B u).bind fun bu => vecAddB ax bu

/-- `self.P = np.matmul(self.A, np.matmul(self.cur_P, self.A.T)) + self.Q`
(right-hand side only). -/
def predictP (A Q P : Mat) : Option Mat :=
  (matmulL P (transposeL A)).bind fun PA =>
    (matmulL A PA).bind fun APA => matAddL APA Q

/-- `self.S = np.matmul(self.H, np.matmul(self.P, self.H.T)) + self.R`
(right-hand side only). -/
def innovCov (H P R : Mat) : Option Mat :=
  (matmulL P (transposeL H)).bind fun PH =>
    (matmulL H PH).bind fun HPH => matAddL HPH R

/-- `self.K = np.matmul(self.P, np.matmul(self.H.T, inv(self.S)))`
(right-hand side only). -/
def gainK (P H S : Mat) : Option Mat :=
  (npinv S).bind fun Sinv =>
    (matmulL (transposeL H) Sinv).bind fun HS => matmulL P HS

/-- `self.y = self.measureState - np.dot(self.H, self.x)`
(right-hand side only). -/
def residY (H : Mat) (x z : Vec) : Option Vec :=
  (dotMV H x).bind fun hx => vecSubB z hx

/-- `KalmanFilter.update(measureState, control)`, statement by statement:
store the arguments, save `cur_x`/`cur_P` into `last_x`/`last_P`, compute
the prior `x`, `P`, then `S`, `K`, `y`, then the corrected `cur_x`, and
finally `cur_P = np.matmul(np.eye(4) - np.matmul(K, H), P)` with the
identity hardcoded at size 4. -/
def KalmanFilter.update (kf0 : KalmanFilter) (measureState control : Vec) :
    StepResult :=
  let kf1 : KalmanFilter :=
    { kf0 with measureState := some measureState, control := some control }
  let kf2 : KalmanFilter :=
    { kf1 with last_x := some kf1.cur_x, last_P := some kf1.cur_P }
  stepO (predictX kf2.A kf2.B kf2.cur_x control) kf2 fun xp =>
  let kf3 : KalmanFilter := { kf2 with x := some xp }
  stepO (predictP kf3.A kf3.Q kf3.cur_P) kf3 fun pp =>
  let kf4 : KalmanFilter := { kf3 with P := some pp }
  stepO (innovCov kf4.H pp kf4.R) kf4 fun sm =>
  let kf5 : KalmanFilter := { kf4 with S := some sm }
  stepO (gainK pp kf5.H sm) kf5 fun km =>
  let kf6 : KalmanFilter := { kf5 with K := some km }
  stepO (residY kf6.H xp measureState) kf6 fun yv =>
  let kf7 : KalmanFilter := { kf6 with y := some yv }
  stepO ((dotMV km yv).bind fun ky => vecAddB xp ky) kf7 fun nx =>
  let kf8 : KalmanFilter := { kf7 with cur_x := nx }
  stepO ((matmulL km kf8.H).bind fun kh =>
           (matSubL (eyeL 4) kh).bind fun ikh => matmulL ikh pp) kf8 fun np =>
  .ok { kf8 with cur_P := np }

/-!
### Bridge between list-level arrays and Mathlib matrices

`MatRep r c L A` states that the list-of-lists `L` is a well-formed `r × c`
array whose entries agree with the Mathlib matrix `A`; `VecRep` likewise
for 1-D arrays.  Each NumPy operation modelled above gets a lemma relating
it to the corresponding Mathlib operation.
-/

lemma nrows_mkMat (r c : Nat) (f : Nat → Nat → ℚ) : nrows (mkMat r c f) = r := by
  simp [nrows, mkMat]

lemma ncols_mkMat (r c : Nat) (f : Nat → Nat → ℚ) (hr : 0 < r) :
    ncols (mkMat r c f) = c := by
  obtain ⟨r0, rfl⟩ : ∃ r0, r = r0 + 1 := ⟨r - 1, by omega⟩
  simp [ncols, mkMat, List.range_succ_eq_map]

lemma getE_mkMat {r c i j : Nat} (f : Nat → Nat → ℚ) (hi : i < r) (hj : j < c) :
    getE (mkMat r c f) i j = f i j := by
  simp [getE, mkMat, List.getD_eq_getElem?_getD, List.getElem?_map,
    List.getElem?_range hi, List.getElem?_range hj]

lemma rect_mkMat (r c : Nat) (f : Nat → Nat → ℚ) : RectMat (mkMat r c f) := by
  intro row hrow
  simp only [mkMat, List.mem_map, List.mem_range] at hrow
  obtain ⟨i, hi, rfl⟩ := hrow
  rw [ncols_mkMat r c f (by omega)]
  simp

/-- `L` is a well-formed `r × c` array representing the matrix `A`. -/
def MatRep (r c : Nat) (L : Mat) (A : Matrix (Fin r) (Fin c) ℚ) : Prop :=
  nrows L = r ∧ ncols L = c ∧ RectMat L ∧
    ∀ (i : Fin r) (j : Fin c), getE L i.val j.val = A i j

/-- `l` is a length-`n` array representing the vector `v`. -/
def VecRep (n : Nat) (l : Vec) (v : Fin n → ℚ) : Prop :=
  l.length = n ∧ ∀ i : Fin n, getV l i.val = v i

instance {r c : Nat} {L : Mat} {A : Matrix (Fin r) (Fin c) ℚ} :
    Decidable (MatRep r c L A) := by
  unfold MatRep RectMat
  infer_instance

instance {n : Nat} {l : Vec} {v : Fin n → ℚ} : Decidable (VecRep n l v) := by
  unfold VecRep
  infer_instance

lemma mkMat_rep {r c : Nat} {f : Nat → Nat → ℚ} {A : Matrix (Fin r) (Fin c) ℚ}
    (hr : 0 < r) (hf : ∀ (i : Fin r) (j : Fin c), f i.val j.val = A i j) :
    MatRep r c (mkMat r c f) A :=
  ⟨nrows_mkMat r c f, ncols_mkMat r c f hr, rect_mkMat r c f, fun i j => by
    rw [getE_mkMat f i.isLt j.isLt]; exact hf i j⟩

lemma getV_mapRange {n i : Nat} (f : Nat → ℚ) (hi : i < n) :
    getV ((List.range n).map f) i = f i := by
  simp [getV, List.getD_eq_getElem?_getD, List.getElem?_map, List.getElem?_range hi]

lemma bdim_self (a : Nat) : bdim a a = some a := by simp [bdim]

lemma bIdx_fin {n : Nat} (i : Fin n) : bIdx n i.val = i.val := by
  have hi := i.isLt
  unfold bIdx
  split
  · next h => omega
  · rfl

lemma transposeL_rep {r c : Nat} {L : Mat} {A : Matrix (Fin r) (Fin c) ℚ}
    (h : MatRep r c L A) (hc : 0 < c) :
    MatRep c r (transposeL L) Aᵀ := by
  obtain ⟨hr', hc', hrect, he⟩ := h
  unfold transposeL
  rw [hr', hc']
  exact mkMat_rep hc fun i j => he j i

lemma matmulL_rep {r k c : Nat} {LA LB : Mat} {A : Matrix (Fin r) (Fin k) ℚ}
    {B : Matrix (Fin k) (Fin c) ℚ} (hA : MatRep r k LA A) (hB : MatRep k c LB B)
    (hr : 0 < r) :
    ∃ L', matmulL LA LB = some L' ∧ MatRep r c L' (A * B) := by
  obtain ⟨har, hac, harect, hae⟩ := hA
  obtain ⟨hbr, hbc, hbrect, hbe⟩ := hB
  have heq : matmulL LA LB =
      some (mkMat r c fun i j => ∑ t in Finset.range k, getE LA i t * getE LB t j) := by
    unfold matmulL
    rw [hac, hbr, if_pos rfl, har, hbc]
  refine ⟨_, heq, mkMat_rep hr fun i j => ?_⟩
  rw [Matrix.mul_apply, ← Fin.sum_univ_eq_sum_range (fun t => getE LA i.val t * getE LB t j.val) k]
  exact Finset.sum_congr rfl fun t _ => by rw [hae i t, hbe t j]

lemma bGet_rep {r c : Nat} {L : Mat} {A : Matrix (Fin r) (Fin c) ℚ}
    (h : MatRep r c L A) (i : Fin r) (j : Fin c) :
    bGet L i.val j.val = A i j := by
  obtain ⟨hr', hc', hrect, he⟩ := h
  unfold bGet
  rw [hr', hc', bIdx_fin, bIdx_fin]
  exact he i j

lemma matAddL_rep {r c : Nat} {LA LB : Mat} {A B : Matrix (Fin r) (Fin c) ℚ}
    (hA : MatRep r c LA A) (hB : MatRep r c LB B) (hr : 0 < r) :
    ∃ L', matAddL LA LB = some L' ∧ MatRep r c L' (A + B) := by
  have heq : matAddL LA LB = some (mkMat r c fun i j => bGet LA i j + bGet LB i j) := by
    unfold matAddL
    rw [hA.1, hB.1, hA.2.1, hB.2.1, bdim_self, bdim_self]
  refine ⟨_, heq, mkMat_rep hr fun i j => ?_⟩
  rw [bGet_rep hA i j, bGet_rep hB i j, Matrix.add_apply]

lemma matSubL_rep {r c : Nat} {LA LB : Mat} {A B : Matrix (Fin r) (Fin c) ℚ}
    (hA : MatRep r c LA A) (hB : MatRep r c LB B) (hr : 0 < r) :
    ∃ L', matSubL LA LB = some L' ∧ MatRep r c L' (A - B) := by
  have heq : matSubL LA LB = some (mkMat r c fun i j => bGet LA i j - bGet LB i j) := by
    unfold matSubL
    rw [hA.1, hB.1, hA.2.1, hB.2.1, bdim_self, bdim_self]
  refine ⟨_, heq, mkMat_rep hr fun i j => ?_⟩
  rw [bGet_rep hA i j, bGet_rep hB i j, Matrix.sub_apply]

lemma dotMV_rep {r c : Nat} {L : Mat} {A : Matrix (Fin r) (Fin c) ℚ}
    {l : Vec} {v : Fin c → ℚ} (hA : MatRep r c L A) (hv : VecRep c l v) :
    ∃ l', dotMV L l = some l' ∧ VecRep r l' (A.mulVec v) := by
  obtain ⟨har, hac, harect, hae⟩ := hA
  obtain ⟨hvl, hve⟩ := hv
  have heq : dotMV L l =
      some ((List.range r).map fun i => ∑ j in Finset.range c, getE L i j * getV l j) := by
    unfold dotMV
    rw [hac, hvl, if_pos rfl, har]
  refine ⟨_, heq, by simp, fun i => ?_⟩
  rw [getV_mapRange _ i.isLt, Matrix.mulVec, Matrix.dotProduct,
    ← Fin.sum_univ_eq_sum_range (fun j => getE L i.val j * getV l j) c]
  exact Finset.sum_congr rfl fun j _ => by rw [hae i j, hve j]

lemma vecAddB_rep {n : Nat} {lx ly : Vec} {v w : Fin n → ℚ}
    (hx : VecRep n lx v) (hy : VecRep n ly w) :
    ∃ l', vecAddB lx ly = some l' ∧ VecRep n l' (v + w) := by
  obtain ⟨hxl, hxe⟩ := hx
  obtain ⟨hyl, hye⟩ := hy
  have heq : vecAddB lx ly =
      some ((List.range n).map fun i => getV lx (bIdx n i) + getV ly (bIdx n i)) := by
    unfold vecAddB
    rw [hxl, hyl, bdim_self]
  refine ⟨_, heq, by simp, fun i => ?_⟩
  rw [getV_mapRange _ i.isLt, bIdx_fin, hxe i, hye i, Pi.add_apply]

lemma vecSubB_rep {n : Nat} {lx ly : Vec} {v w : Fin n → ℚ}
    (hx : VecRep n lx v) (hy : VecRep n ly w) :
    ∃ l', vecSubB lx ly = some l' ∧ VecRep n l' (v - w) := by
  obtain ⟨hxl, hxe⟩ := hx
  obtain ⟨hyl, hye⟩ := hy
  have heq : vecSubB lx ly =
      some ((List.range n).map fun i => getV lx (bIdx n i) - getV ly (bIdx n i)) := by
    unfold vecSubB
    rw [hxl, hyl, bdim_self]
  refine ⟨_, heq, by simp, fun i => ?_⟩
  rw [getV_mapRange _ i.isLt, bIdx_fin, hxe i, hye i, Pi.sub_apply]

lemma eyeL_rep {n : Nat} (hn : 0 < n) : MatRep n n (eyeL n) (1 : Matrix (Fin n) (Fin n) ℚ) := by
  unfold eyeL
  refine mkMat_rep hn fun i j => ?_
  rw [Matrix.one_apply]
  by_cases h : i = j
  · subst h; simp
  · rw [if_neg (by simpa [Fin.val_inj] using h), if_neg h]

/-- Build a `MatRep` from row-length facts instead of an `ncols` fact. -/
lemma matRep_mk {r c : Nat} {L : Mat} {A : Matrix (Fin r) (Fin c) ℚ}
    (h1 : nrows L = r) (h2 : ∀ row ∈ L, row.length = c) (h3 : r = 0 → c = 0)
    (h4 : ∀ (i : Fin r) (j : Fin c), getE L i.val j.val = A i j) :
    MatRep r c L A := by
  have hc : ncols L = c := by
    cases L with
    | nil =>
      have : r = 0 := by simpa [nrows] using h1.symm
      simp [ncols, h3 this]
    | cons row rest => exact h2 row (List.mem_cons_self row rest)
  exact ⟨h1, hc, fun row hrow => by rw [h2 row hrow, hc], h4⟩

/-- Read a row out of a 2-D array via `getElem?`. -/
lemma getE_eq_row {M : Mat} {i : Nat} {row : List ℚ} (h : M[i]? = some row) (j : Nat) :
    getE M i j = row.getD j 0 := by
  have hrow : M.getD i [] = row := by
    rw [List.getD_eq_getElem?_getD, h]
    rfl
  unfold getE
  rw [hrow]

lemma succAbove_val {n : Nat} (j : Fin (n + 1)) (b : Fin n) :
    ((j.succAbove b) : ℕ) = if (b : ℕ) < (j : ℕ) then (b : ℕ) else (b : ℕ) + 1 := by
  unfold Fin.succAbove
  split
  · next h =>
    simp only [Fin.lt_def, Fin.coe_castSucc] at h
    rw [if_pos h]
    rfl
  · next h =>
    simp only [Fin.lt_def, Fin.coe_castSucc] at h
    rw [if_neg (by omega)]
    rfl

/-- Deleting row 0 and column `j` of a represented matrix represents the
corresponding submatrix. -/
lemma minor_rep {n : Nat} {L : Mat} {M : Matrix (Fin (n + 1)) (Fin (n + 1)) ℚ}
    (h : MatRep (n + 1) (n + 1) L M) (j : Fin (n + 1)) :
    MatRep n n (L.tail.map fun row => row.eraseIdx j.val)
      (M.submatrix Fin.succ j.succAbove) := by
  obtain ⟨hr, hc, hrect, he⟩ := h
  apply matRep_mk
  · simp only [nrows, List.length_map, List.length_tail]
    simp only [nrows] at hr
    omega
  · intro row hrow
    simp only [List.mem_map] at hrow
    obtain ⟨row0, hmem, rfl⟩ := hrow
    have hm : row0 ∈ L := List.mem_of_mem_tail hmem
    have hl : row0.length = n + 1 := by rw [hrect row0 hm, hc]
    rw [List.length_eraseIdx_of_lt (by rw [hl]; exact j.isLt), hl]
    omega
  · intro h0
    exact h0
  · intro a b
    have hb := b.isLt
    have hj := j.isLt
    have ha1 : a.val + 1 < L.length := by
      simp only [nrows] at hr
      omega
    set row := L.getD (a.val + 1) [] with hrowdef
    have hrowsome : L[a.val + 1]? = some row := by
      rw [hrowdef, List.getD_eq_getElem?_getD, List.getElem?_eq_getElem ha1]
      rfl
    have htail : (L.tail.map fun row => row.eraseIdx j.val)[a.val]? =
        some (row.eraseIdx j.val) := by
      rw [List.getElem?_map, List.getElem?_tail, hrowsome]
      rfl
    rw [getE_eq_row htail b.val]
    have herase : (row.eraseIdx j.val).getD b.val 0 =
        row.getD (if b.val < j.val then b.val else b.val + 1) 0 := by
      rw [List.getD_eq_getElem?_getD, List.getD_eq_getElem?_getD,
        List.getElem?_eraseIdx]
      split <;> rfl
    rw [herase]
    have hsub : M.submatrix Fin.succ j.succAbove a b = M a.succ (j.succAbove b) := rfl
    rw [hsub, ← he a.succ (j.succAbove b)]
    have hsa : ((j.succAbove b) : ℕ) = if b.val < j.val then b.val else b.val + 1 :=
      succAbove_val j b
    have hgl : getE L (Fin.succ a).val (j.succAbove b).val =
        row.getD (if b.val < j.val then b.val else b.val + 1) 0 := by
      rw [Fin.val_succ, getE_eq_row hrowsome, hsa]
    exact hgl.symm

/-- The fuel-based Laplace determinant agrees with `Matrix.det`. -/
lemma detAux_rep (n : Nat) : ∀ (L : Mat) (M : Matrix (Fin n) (Fin n) ℚ),
    MatRep n n L M → detAux n L = M.det := by
  induction n with
  | zero =>
    intro L M h
    rw [Matrix.det_fin_zero]
    rfl
  | succ n ih =>
    intro L M h
    rw [Matrix.det_succ_row_zero]
    show (∑ j in Finset.range (n + 1),
        (-1 : ℚ) ^ j * getE L 0 j * detAux n (L.tail.map fun row => row.eraseIdx j)) = _
    rw [← Fin.sum_univ_eq_sum_range
      (fun j => (-1 : ℚ) ^ j * getE L 0 j * detAux n (L.tail.map fun row => row.eraseIdx j))
      (n + 1)]
    refine Finset.sum_congr rfl fun j _ => ?_
    have h0 : getE L 0 j.val = M 0 j := by
      have := h.2.2.2 0 j
      simpa using this
    rw [ih _ _ (minor_rep h j), h0]

lemma detL_rep {n : Nat} {L : Mat} {M : Matrix (Fin n) (Fin n) ℚ}
    (h : MatRep n n L M) : detL L = M.det := by
  rw [detL, h.1]
  exact detAux_rep n L M h

lemma unitRow_rep {n : Nat} (i : Fin n) :
    VecRep n (unitRow n i.val) (Pi.single i (1 : ℚ)) := by
  refine ⟨by simp [unitRow], fun t => ?_⟩
  unfold unitRow
  rw [getV_mapRange _ t.isLt, Pi.single_apply]
  by_cases h : t = i
  · subst h; simp
  · rw [if_neg (by simpa [Fin.val_inj] using h), if_neg h]

lemma setRow_rep {n : Nat} {L : Mat} {M : Matrix (Fin n) (Fin n) ℚ}
    (h : MatRep n n L M) (j : Fin n) {v : Vec} {w : Fin n → ℚ}
    (hv : VecRep n v w) : MatRep n n (L.set j.val v) (M.updateRow j w) := by
  obtain ⟨hr, hc, hrect, he⟩ := h
  obtain ⟨hvl, hve⟩ := hv
  apply matRep_mk
  · simp only [nrows, List.length_set]
    exact hr
  · intro row hrow
    rcases List.mem_or_eq_of_mem_set hrow with hmem | rfl
    · rw [hrect row hmem, hc]
    · exact hvl
  · intro h0
    exact h0
  · intro a b
    have hjl : j.val < L.length := by
      simp only [nrows] at hr
      exact hr ▸ j.isLt
    by_cases hja : j.val = a.val
    · have hfin : a = j := by
        rw [Fin.ext_iff]
        omega
      subst hfin
      have hsome : (L.set a.val v)[a.val]? = some v := by
        rw [List.getElem?_set, if_pos rfl, if_pos hjl]
      rw [getE_eq_row hsome b.val, Matrix.updateRow_self]
      exact hve b
    · have hne : M.updateRow j w a b = M a b := by
        rw [Matrix.updateRow_ne]
        intro hh
        exact hja (by rw [hh])
      have hgd : (L.set j.val v).getD a.val [] = L.getD a.val [] := by
        rw [List.getD_eq_getElem?_getD, List.getElem?_set_ne hja,
          ← List.getD_eq_getElem?_getD]
      rw [hne, ← he a b]
      unfold getE
      rw [hgd]

lemma npinv_none {n : Nat} {L : Mat} {M : Matrix (Fin n) (Fin n) ℚ}
    (h : MatRep n n L M) (hdet : M.det = 0) : npinv L = none := by
  have hd : detL L = M.det := detL_rep h
  unfold npinv
  rw [h.1, h.2.1, if_pos rfl, hd, hdet, if_pos rfl]

lemma npinv_some {n : Nat} {L : Mat} {M : Matrix (Fin n) (Fin n) ℚ}
    (h : MatRep n n L M) (hn : 0 < n) (hdet : M.det ≠ 0) :
    ∃ L', npinv L = some L' ∧ MatRep n n L' M⁻¹ := by
  have hd : detL L = M.det := detL_rep h
  have heq : npinv L = some (mkMat n n fun i j =>
      (detL L)⁻¹ * detL (L.set j (unitRow n i))) := by
    unfold npinv
    simp only [h.1, h.2.1, hd]
    simp [hdet]
  refine ⟨_, heq, mkMat_rep hn fun i j => ?_⟩
  have hset : MatRep n n (L.set j.val (unitRow n i.val)) (M.updateRow j (Pi.single i 1)) :=
    setRow_rep h j (unitRow_rep i)
  rw [detL_rep hset, hd, Matrix.inv_def, Matrix.smul_apply, Ring.inverse_eq_inv,
    Matrix.adjugate_apply, smul_eq_mul]

/-!
### Tracing `update`

Structural facts that hold on every control path of `update`, and the main
trace lemmas for the success path, the singular-`S` path, and the
dimension-mismatch path of the final (hardcoded `np.eye(4)`) statement.
-/

/-- Every call to `update`, whether it returns or raises, leaves the model
matrices untouched, stores the arguments, and saves the previous current
state into `last_x`/`last_P` (this happens before any arithmetic). -/
lemma update_base (kf : KalmanFilter) (z u : Vec) :
    (kf.update z u).state.A = kf.A ∧ (kf.update z u).state.B = kf.B ∧
    (kf.update z u).state.H = kf.H ∧ (kf.update z u).state.Q = kf.Q ∧
    (kf.update z u).state.R = kf.R ∧
    (kf.update z u).state.measureState = some z ∧
    (kf.update z u).state.control = some u ∧
    (kf.update z u).state.last_x = some kf.cur_x ∧
    (kf.update z u).state.last_P = some kf.cur_P := by
  unfold KalmanFilter.update
  simp only [stepO]
  repeat' split
  all_goals simp [StepResult.state]

/-- `cur_P` is only ever assigned by the final successful statement, so a
raising call leaves it unchanged. -/
lemma update_err_curP (kf : KalmanFilter) (z u : Vec)
    (h : (kf.update z u).isOk = false) :
    (kf.update z u).state.cur_P = kf.cur_P := by
  revert h
  unfold KalmanFilter.update
  simp only [stepO]
  repeat' split
  all_goals simp [StepResult.state, StepResult.isOk]

/-- A successful `np.dot(A, x)` has one entry per row of `A`. -/
lemma dotMV_some_length {A : Mat} {x l : Vec} (h : dotMV A x = some l) :
    l.length = nrows A := by
  unfold dotMV at h
  split at h
  · cases h
    simp
  · cases h

/-- Main trace of `update` through the correction gain: with a well-shaped
model (`A` n×n, `B` n×m, `H` k×n, `Q` n×n, `R` k×k, state length n,
covariance n×n, `z` length k, `u` length m) and nonsingular innovation
covariance, every statement up to and including the corrected state
assignment succeeds, and the call reduces to the final covariance
statement. -/
lemma update_prefix {n m k : Nat} {kf : KalmanFilter} {z u : Vec}
    {MA MQ MP : Matrix (Fin n) (Fin n) ℚ} {MB : Matrix (Fin n) (Fin m) ℚ}
    {MH : Matrix (Fin k) (Fin n) ℚ} {MR : Matrix (Fin k) (Fin k) ℚ}
    {vx : Fin n → ℚ} {vz : Fin k → ℚ} {vu : Fin m → ℚ}
    {Pp : Matrix (Fin n) (Fin n) ℚ} {MS : Matrix (Fin k) (Fin k) ℚ}
    {MK : Matrix (Fin n) (Fin k) ℚ} {xp : Fin n → ℚ} {vy : Fin k → ℚ}
    {cx : Fin n → ℚ}
    (hn : 0 < n) (hk : 0 < k)
    (hA : MatRep n n kf.A MA) (hB : MatRep n m kf.B MB)
    (hH : MatRep k n kf.H MH) (hQ : MatRep n n kf.Q MQ)
    (hR : MatRep k k kf.R MR) (hx : VecRep n kf.cur_x vx)
    (hP : MatRep n n kf.cur_P MP) (hz : VecRep k z vz) (hu : VecRep m u vu)
    (hPp : Pp = MA * (MP * MAᵀ) + MQ) (hS : MS = MH * (Pp * MHᵀ) + MR)
    (hdet : MS.det ≠ 0) (hMK : MK = Pp * (MHᵀ * MS⁻¹))
    (hxp : xp = MA.mulVec vx + MB.mulVec vu) (hvy : vy = vz - MH.mulVec xp)
    (hcx : cx = xp + MK.mulVec vy) :
    ∃ lxp LPp LS LK ly lcx LKH,
      kf.update z u =
        stepO ((matSubL (eyeL 4) LKH).bind fun ikh => matmulL ikh LPp)
          { kf with
            measureState := some z,
            control := some u,
            last_x := some kf.cur_x,
            last_P := some kf.cur_P,
            x := some lxp,
            P := some LPp,
            S := some LS,
            K := some LK,
            y := some ly,
            cur_x := lcx }
          (fun np => .ok { kf with
            measureState := some z,
            control := some u,
            last_x := some kf.cur_x,
            last_P := some kf.cur_P,
            x := some lxp,
            P := some LPp,
            S := some LS,
            K := some LK,
            y := some ly,
            cur_x := lcx,
            cur_P := np }) ∧
      VecRep n lxp xp ∧ MatRep n n LPp Pp ∧ MatRep k k LS MS ∧
      MatRep n k LK MK ∧ VecRep k ly vy ∧ VecRep n lcx cx ∧
      MatRep n n LKH (MK * MH) := by
  obtain ⟨lax, ea, ra⟩ := dotMV_rep hA hx
  obtain ⟨lbu, eb, rb⟩ := dotMV_rep hB hu
  obtain ⟨lxp, ec, rc⟩ := vecAddB_rep ra rb
  have e1 : predictX kf.A kf.B kf.cur_x u = some lxp := by
    simp [predictX, ea, eb, ec]
  have rAT : MatRep n n (transposeL kf.A) MAᵀ := transposeL_rep hA hn
  obtain ⟨LPA, e2a, r2a⟩ := matmulL_rep hP rAT hn
  obtain ⟨LAPA, e2b, r2b⟩ := matmulL_rep hA r2a hn
  obtain ⟨LPp, e2c, r2c⟩ := matAddL_rep r2b hQ hn
  have e2 : predictP kf.A kf.Q kf.cur_P = some LPp := by
    simp [predictP, e2a, e2b, e2c]
  have rHT : MatRep n k (transposeL kf.H) MHᵀ := transposeL_rep hH hn
  obtain ⟨LPH, e3a, r3a⟩ := matmulL_rep r2c rHT hn
  obtain ⟨LHPH, e3b, r3b⟩ := matmulL_rep hH r3a hk
  obtain ⟨LS, e3c, r3c⟩ := matAddL_rep r3b hR hk
  have e3 : innovCov kf.H LPp kf.R = some LS := by
    simp [innovCov, e3a, e3b, e3c]
  have r3c' : MatRep k k LS MS := by rw [hS, hPp]; exact r3c
  obtain ⟨LSinv, e4a, r4a⟩ := npinv_some r3c' hk hdet
  obtain ⟨LHS, e4b, r4b⟩ := matmulL_rep rHT r4a hn
  obtain ⟨LK, e4c, r4c⟩ := matmulL_rep r2c r4b hn
  have e4 : gainK LPp kf.H LS = some LK := by
    simp [gainK, e4a, e4b, e4c]
  have rc' : VecRep n lxp xp := by rw [hxp]; exact rc
  obtain ⟨lhx, e5a, r5a⟩ := dotMV_rep hH rc'
  obtain ⟨ly, e5b, r5b⟩ := vecSubB_rep hz r5a
  have e5 : residY kf.H lxp z = some ly := by
    simp [residY, e5a, e5b]
  have r4c' : MatRep n k LK MK := by rw [hMK, hPp]; exact r4c
  have r5b' : VecRep k ly vy := by rw [hvy]; exact r5b
  obtain ⟨lky, e6a, r6a⟩ := dotMV_rep r4c' r5b'
  obtain ⟨lcx, e6b, r6b⟩ := vecAddB_rep rc' r6a
  have e6 : (dotMV LK ly).bind (fun ky => vecAddB lxp ky) = some lcx := by
    simp [e6a, e6b]
  obtain ⟨LKH, e7, r7⟩ := matmulL_rep r4c' hH hn
  refine ⟨lxp, LPp, LS, LK, ly, lcx, LKH, ?_, rc', by rw [hPp]; exact r2c,
    r3c', r4c', r5b', by rw [hcx]; exact r6b, r7⟩
  unfold KalmanFilter.update
  simp only [e1, e2, e3, e4, e5, e6a, e6b, e7, stepO, Option.some_bind]

/-- For a 4-dimensional state, the final covariance statement
`np.matmul(np.eye(4) - np.matmul(K, H), P)` succeeds and computes
`(I - K·H)·P_pred`. -/
lemma final_step4 {LKH LPp : Mat} {MKH Pp : Matrix (Fin 4) (Fin 4) ℚ}
    (hKH : MatRep 4 4 LKH MKH) (hPp : MatRep 4 4 LPp Pp) :
    ∃ LP', ((matSubL (eyeL 4) LKH).bind fun ikh => matmulL ikh LPp) = some LP' ∧
      MatRep 4 4 LP' ((1 - MKH) * Pp) := by
  have hey : MatRep 4 4 (eyeL 4) 1 := eyeL_rep (by norm_num)
  obtain ⟨Likh, ei, ri⟩ := matSubL_rep hey hKH (by norm_num)
  obtain ⟨LP', em, rm⟩ := matmulL_rep ri hPp (by norm_num)
  refine ⟨LP', ?_, rm⟩
  rw [ei, Option.some_bind, em]

/-- For any state dimension other than 4, the hardcoded `np.eye(4)` makes
the final covariance statement a NumPy shape error. -/
lemma final_stepNe4 {n : Nat} {LKH LPp : Mat} {MKH Pp : Matrix (Fin n) (Fin n) ℚ}
    (hKH : MatRep n n LKH MKH) (hPp : MatRep n n LPp Pp) (hn : 0 < n)
    (hne : n ≠ 4) :
    ((matSubL (eyeL 4) LKH).bind fun ikh => matmulL ikh LPp) = none := by
  have her : nrows (eyeL 4) = 4 := by decide
  have hec : ncols (eyeL 4) = 4 := by decide
  by_cases h1 : n = 1
  · subst h1
    have hsub : matSubL (eyeL 4) LKH =
        some (mkMat 4 4 fun i j => bGet (eyeL 4) i j - bGet LKH i j) := by
      unfold matSubL
      rw [her, hec, hKH.1, hKH.2.1]
      rfl
    rw [hsub, Option.some_bind]
    unfold matmulL
    rw [ncols_mkMat 4 4 _ (by norm_num), hPp.1, if_neg (by omega)]
  · have hb : bdim 4 (nrows LKH) = none := by
      rw [hKH.1]
      unfold bdim
      rw [if_neg (by omega), if_neg (by omega), if_neg (by omega)]
    unfold matSubL
    rw [her, hb]
    cases bdim (ncols (eyeL 4)) (ncols LKH) <;> rfl

/-- Trace of `update` when the innovation covariance is singular: the call
raises out of `numpy.linalg.inv`, with the prediction already stored in
`x`/`P`, `S` assigned, and `K`, `y`, `cur_x`, `cur_P` untouched. -/
lemma update_sing {n m k : Nat} {kf : KalmanFilter} {z u : Vec}
    {MA MQ MP : Matrix (Fin n) (Fin n) ℚ} {MB : Matrix (Fin n) (Fin m) ℚ}
    {MH : Matrix (Fin k) (Fin n) ℚ} {MR : Matrix (Fin k) (Fin k) ℚ}
    {vx : Fin n → ℚ} {vu : Fin m → ℚ}
    {Pp : Matrix (Fin n) (Fin n) ℚ} {MS : Matrix (Fin k) (Fin k) ℚ}
    {xp : Fin n → ℚ}
    (hn : 0 < n) (hk : 0 < k)
    (hA : MatRep n n kf.A MA) (hB : MatRep n m kf.B MB)
    (hH : MatRep k n kf.H MH) (hQ : MatRep n n kf.Q MQ)
    (hR : MatRep k k kf.R MR) (hx : VecRep n kf.cur_x vx)
    (hP : MatRep n n kf.cur_P MP) (hu : VecRep m u vu)
    (hPp : Pp = MA * (MP * MAᵀ) + MQ) (hS : MS = MH * (Pp * MHᵀ) + MR)
    (hdet : MS.det = 0) (hxp : xp = MA.mulVec vx + MB.mulVec vu) :
    ∃ lxp LPp LS,
      kf.update z u = .err { kf with
        measureState := some z,
        control := some u,
        last_x := some kf.cur_x,
        last_P := some kf.cur_P,
        x := some lxp,
        P := some LPp,
        S := some LS } ∧
      VecRep n lxp xp ∧ MatRep n n LPp Pp ∧ MatRep k k LS MS := by
  obtain ⟨lax, ea, ra⟩ := dotMV_rep hA hx
  obtain ⟨lbu, eb, rb⟩ := dotMV_rep hB hu
  obtain ⟨lxp, ec, rc⟩ := vecAddB_rep ra rb
  have e1 : predictX kf.A kf.B kf.cur_x u = some lxp := by
    simp [predictX, ea, eb, ec]
  have rAT : MatRep n n (transposeL kf.A) MAᵀ := transposeL_rep hA hn
  obtain ⟨LPA, e2a, r2a⟩ := matmulL_rep hP rAT hn
  obtain ⟨LAPA, e2b, r2b⟩ := matmulL_rep hA r2a hn
  obtain ⟨LPp, e2c, r2c⟩ := matAddL_rep r2b hQ hn
  have e2 : predictP kf.A kf.Q kf.cur_P = some LPp := by
    simp [predictP, e2a, e2b, e2c]
  have rHT : MatRep n k (transposeL kf.H) MHᵀ := transposeL_rep hH hn
  obtain ⟨LPH, e3a, r3a⟩ := matmulL_rep r2c rHT hn
  obtain ⟨LHPH, e3b, r3b⟩ := matmulL_rep hH r3a hk
  obtain ⟨LS, e3c, r3c⟩ := matAddL_rep r3b hR hk
  have e3 : innovCov kf.H LPp kf.R = some LS := by
    simp [innovCov, e3a, e3b, e3c]
  have r3c' : MatRep k k LS MS := by rw [hS, hPp]; exact r3c
  have e4 : gainK LPp kf.H LS = none := by
    simp [gainK, npinv_none r3c' hdet]
  refine ⟨lxp, LPp, LS, ?_, by rw [hxp]; exact rc, by rw [hPp]; exact r2c, r3c'⟩
  unfold KalmanFilter.update
  simp only [e1, e2, e3, e4, stepO]

/-- Trace of the predict step only: with a well-shaped `A`, `B`, `Q`,
state, covariance and control, the prior `x`/`P` are computed and stored
(whatever happens in the rest of the tick), and they equal the pure
functions `predictX`/`predictP` of exactly `(A, B, Q, x, P, u)`. -/
lemma update_predict {n m : Nat} {kf : KalmanFilter} {z u : Vec}
    {MA MQ MP : Matrix (Fin n) (Fin n) ℚ} {MB : Matrix (Fin n) (Fin m) ℚ}
    {vx : Fin n → ℚ} {vu : Fin m → ℚ}
    {Pp : Matrix (Fin n) (Fin n) ℚ} {xp : Fin n → ℚ}
    (hn : 0 < n)
    (hA : MatRep n n kf.A MA) (hB : MatRep n m kf.B MB)
    (hQ : MatRep n n kf.Q MQ) (hx : VecRep n kf.cur_x vx)
    (hP : MatRep n n kf.cur_P MP) (hu : VecRep m u vu)
    (hxp : xp = MA.mulVec vx + MB.mulVec vu)
    (hPp : Pp = MA * (MP * MAᵀ) + MQ) :
    ∃ lxp LPp,
      (kf.update z u).state.x = some lxp ∧
      (kf.update z u).state.P = some LPp ∧
      (kf.update z u).state.x = predictX kf.A kf.B kf.cur_x u ∧
      (kf.update z u).state.P = predictP kf.A kf.Q kf.cur_P ∧
      VecRep n lxp xp ∧ MatRep n n LPp Pp := by
  obtain ⟨lax, ea, ra⟩ := dotMV_rep hA hx
  obtain ⟨lbu, eb, rb⟩ := dotMV_rep hB hu
  obtain ⟨lxp, ec, rc⟩ := vecAddB_rep ra rb
  have e1 : predictX kf.A kf.B kf.cur_x u = some lxp := by
    simp [predictX, ea, eb, ec]
  have rAT : MatRep n n (transposeL kf.A) MAᵀ := transposeL_rep hA hn
  obtain ⟨LPA, e2a, r2a⟩ := matmulL_rep hP rAT hn
  obtain ⟨LAPA, e2b, r2b⟩ := matmulL_rep hA r2a hn
  obtain ⟨LPp, e2c, r2c⟩ := matAddL_rep r2b hQ hn
  have e2 : predictP kf.A kf.Q kf.cur_P = some LPp := by
    simp [predictP, e2a, e2b, e2c]
  have hx1 : (kf.update z u).state.x = some lxp := by
    unfold KalmanFilter.update
    simp only [e1, e2, stepO]
    repeat' split
    all_goals simp [StepResult.state]
  have hP1 : (kf.update z u).state.P = some LPp := by
    unfold KalmanFilter.update
    simp only [e1, e2, stepO]
    repeat' split
    all_goals simp [StepResult.state]
  exact ⟨lxp, LPp, hx1, hP1, by rw [hx1, e1], by rw [hP1, e2],
    by rw [hxp]; exact rc, by rw [hPp]; exact r2c⟩

/-!
### Symmetry algebra and list-level symmetry transfer
-/

/-- A represented square array is determined by its entry function. -/
lemma matRep_eq_mkMat {r c : Nat} {L : Mat} {A : Matrix (Fin r) (Fin c) ℚ}
    (h : MatRep r c L A) : L = mkMat r c fun i j => getE L i j := by
  obtain ⟨hr, hc, hrect, he⟩ := h
  apply List.ext_getElem
  · simp only [nrows] at hr
    rw [hr]
    simp [mkMat]
  · intro i hi1 hi2
    have hi : i < r := by
      simp only [nrows] at hr
      omega
    have hrowmem : L[i] ∈ L := List.getElem_mem hi1
    have hrl : L[i].length = c := by rw [hrect _ hrowmem, hc]
    have hmk : (mkMat r c fun i j => getE L i j)[i] =
        (List.range c).map fun j => getE L i j := by
      simp [mkMat, List.getElem_map, List.getElem_range]
    rw [hmk]
    apply List.ext_getElem
    · simp [hrl]
    · intro j hj1 hj2
      have hLi : L.getD i [] = L[i] := by
        rw [List.getD_eq_getElem?_getD, List.getElem?_eq_getElem hi1]
        rfl
      rw [List.getElem_map, List.getElem_range]
      unfold getE
      rw [hLi, List.getD_eq_getElem?_getD, List.getElem?_eq_getElem hj1]
      rfl

lemma mkMat_congr {r c : Nat} {f g : Nat → Nat → ℚ}
    (h : ∀ i j, i < r → j < c → f i j = g i j) : mkMat r c f = mkMat r c g := by
  unfold mkMat
  apply List.map_congr_left
  intro i hi
  apply List.map_congr_left
  intro j hj
  exact h i j (List.mem_range.mp hi) (List.mem_range.mp hj)

/-- List-level symmetry transfers to the represented matrix. -/
lemma matRep_symm_of {n : Nat} {L : Mat} {M : Matrix (Fin n) (Fin n) ℚ}
    (h : MatRep n n L M) (hs : transposeL L = L) : Mᵀ = M := by
  ext i j
  have h1 : getE (transposeL L) i.val j.val = getE L j.val i.val := by
    unfold transposeL
    rw [getE_mkMat _ (by rw [h.2.1]; exact i.isLt) (by rw [h.1]; exact j.isLt)]
  rw [transpose_apply, ← h.2.2.2 j i, ← h1, hs, h.2.2.2 i j]

/-- Matrix-level symmetry transfers back to the representing list. -/
lemma matRep_symm_to_list {n : Nat} {L : Mat} {M : Matrix (Fin n) (Fin n) ℚ}
    (h : MatRep n n L M) (hs : Mᵀ = M) : transposeL L = L := by
  conv_rhs => rw [matRep_eq_mkMat h]
  unfold transposeL
  rw [h.1, h.2.1]
  apply mkMat_congr
  intro i j hi hj
  have he1 : getE L j i = M ⟨j, hj⟩ ⟨i, hi⟩ := h.2.2.2 ⟨j, hj⟩ ⟨i, hi⟩
  have he2 : getE L i j = M ⟨i, hi⟩ ⟨j, hj⟩ := h.2.2.2 ⟨i, hi⟩ ⟨j, hj⟩
  have hms : M ⟨j, hj⟩ ⟨i, hi⟩ = M ⟨i, hi⟩ ⟨j, hj⟩ := by
    conv_rhs => rw [← hs]
    rfl
  rw [he1, he2, hms]

/-- The posterior covariance `(I − K·H)·P_pred` with the exact optimal gain
`K = P_pred·Hᵀ·S⁻¹`, `S = H·P_pred·Hᵀ + R`, is symmetric whenever `P_pred`
and `R` are. -/
lemma corr_sym {n k : Nat} (Pp : Matrix (Fin n) (Fin n) ℚ)
    (MH : Matrix (Fin k) (Fin n) ℚ) (MR : Matrix (Fin k) (Fin k) ℚ)
    (hP : Ppᵀ = Pp) (hR : MRᵀ = MR) :
    ((1 - Pp * (MHᵀ * (MH * (Pp * MHᵀ) + MR)⁻¹) * MH) * Pp)ᵀ =
      (1 - Pp * (MHᵀ * (MH * (Pp * MHᵀ) + MR)⁻¹) * MH) * Pp := by
  set S := MH * (Pp * MHᵀ) + MR with hSdef
  have hST : Sᵀ = S := by
    rw [hSdef]
    rw [transpose_add, transpose_mul, transpose_mul, transpose_transpose, hP, hR,
      Matrix.mul_assoc]
  have hSinvT : (S⁻¹)ᵀ = S⁻¹ := by
    rw [Matrix.transpose_nonsing_inv, hST]
  rw [Matrix.sub_mul, Matrix.one_mul, transpose_sub, hP]
  congr 1
  rw [transpose_mul, transpose_mul, transpose_mul, transpose_mul, hP, hSinvT,
    transpose_transpose]
  simp only [Matrix.mul_assoc]

/-- Consolidated success trace for a 4-dimensional state: with well-shaped
matrices, `z` of length k, `u` of length m, and nonsingular innovation
covariance, the call returns normally and every attribute holds the value
dictated by the textbook formulas. -/
lemma update_ok4 {m k : Nat} {kf : KalmanFilter} {z u : Vec}
    {MA MQ MP : Matrix (Fin 4) (Fin 4) ℚ} {MB : Matrix (Fin 4) (Fin m) ℚ}
    {MH : Matrix (Fin k) (Fin 4) ℚ} {MR : Matrix (Fin k) (Fin k) ℚ}
    {vx : Fin 4 → ℚ} {vz : Fin k → ℚ} {vu : Fin m → ℚ}
    {Pp : Matrix (Fin 4) (Fin 4) ℚ} {MS : Matrix (Fin k) (Fin k) ℚ}
    {MK : Matrix (Fin 4) (Fin k) ℚ} {xp : Fin 4 → ℚ} {vy : Fin k → ℚ}
    {cx : Fin 4 → ℚ}
    (hk : 0 < k)
    (hA : MatRep 4 4 kf.A MA) (hB : MatRep 4 m kf.B MB)
    (hH : MatRep k 4 kf.H MH) (hQ : MatRep 4 4 kf.Q MQ)
    (hR : MatRep k k kf.R MR) (hx : VecRep 4 kf.cur_x vx)
    (hP : MatRep 4 4 kf.cur_P MP) (hz : VecRep k z vz) (hu : VecRep m u vu)
    (hPp : Pp = MA * (MP * MAᵀ) + MQ) (hS : MS = MH * (Pp * MHᵀ) + MR)
    (hdet : MS.det ≠ 0) (hMK : MK = Pp * (MHᵀ * MS⁻¹))
    (hxp : xp = MA.mulVec vx + MB.mulVec vu) (hvy : vy = vz - MH.mulVec xp)
    (hcx : cx = xp + MK.mulVec vy) :
    ∃ lxp LPp LS LK ly lcx LP',
      kf.update z u = .ok { kf with
        measureState := some z,
        control := some u,
        last_x := some kf.cur_x,
        last_P := some kf.cur_P,
        x := some lxp,
        P := some LPp,
        S := some LS,
        K := some LK,
        y := some ly,
        cur_x := lcx,
        cur_P := LP' } ∧
      VecRep 4 lxp xp ∧ MatRep 4 4 LPp Pp ∧ MatRep k k LS MS ∧
      MatRep 4 k LK MK ∧ VecRep k ly vy ∧ VecRep 4 lcx cx ∧
      MatRep 4 4 LP' ((1 - MK * MH) * Pp) := by
  obtain ⟨lxp, LPp, LS, LK, ly, lcx, LKH, heq, rxp, rPp, rS, rK, ry, rcx, rKH⟩ :=
    update_prefix (by norm_num) hk hA hB hH hQ hR hx hP hz hu hPp hS hdet hMK
      hxp hvy hcx
  obtain ⟨LP', ef, rP'⟩ := final_step4 rKH rPp
  refine ⟨lxp, LPp, LS, LK, ly, lcx, LP', ?_, rxp, rPp, rS, rK, ry, rcx, rP'⟩
  rw [heq, ef]
  rfl

/-!
### Claims

Each claim of the specification gets one theorem below (with a
counterexample theorem where the claim as stated fails on the code, and a
witness theorem where the main theorem carries hypotheses).
-/

/-- Modelled from the spec: the dimensional invariant of section 3 — all
five model matrices are rectangular and agree on a single (n, m, k) with
A n×n, B n×m, H k×n, Q n×n, R k×k. -/
def shapesConsistent (A B H Q R : Mat) : Prop :=
  RectMat A ∧ RectMat B ∧ RectMat H ∧ RectMat Q ∧ RectMat R ∧
  ncols A = nrows A ∧ nrows B = nrows A ∧ ncols H = nrows A ∧
  nrows Q = nrows A ∧ ncols Q = nrows A ∧
  nrows R = nrows H ∧ ncols R = nrows H

instance (A B H Q R : Mat) : Decidable (shapesConsistent A B H Q R) := by
  unfold shapesConsistent RectMat
  infer_instance

/-- Claim C4, counterexample: immediately after construction `last_x` is
`None`, not a copy of the initial state, so previousState does not equal
currentState. -/
theorem C4_cex :
    (KalmanFilter.init [[1]] [[1]] [[1]] [[1]] [[1]] [3] [[2]]).last_x = none ∧
    (KalmanFilter.init [[1]] [[1]] [[1]] [[1]] [[1]] [3] [[2]]).cur_x = [3] ∧
    (none : Option Vec) ≠ some [(3 : ℚ)] := by
  refine ⟨rfl, rfl, ?_⟩
  intro h
  cases h

/-- Claim C4 (amended): after construction `current = (x0, P0)`, but the
previous state and covariance are `None` (unset), as are the prior fields;
previous first becomes equal to a state on the first `update`. -/
theorem C4_init_state (A B H Q R : Mat) (x0 : Vec) (P0 : Mat) :
    (KalmanFilter.init A B H Q R x0 P0).cur_x = x0 ∧
    (KalmanFilter.init A B H Q R x0 P0).cur_P = P0 ∧
    (KalmanFilter.init A B H Q R x0 P0).last_x = none ∧
    (KalmanFilter.init A B H Q R x0 P0).last_P = none ∧
    (KalmanFilter.init A B H Q R x0 P0).x = none ∧
    (KalmanFilter.init A B H Q R x0 P0).P = none :=
  ⟨rfl, rfl, rfl, rfl, rfl, rfl⟩

/-- Claim C5 (confirmed): an `update` call that completes saves the
pre-call current state and covariance into `last_x`/`last_P` before
computing anything, so afterwards previous equals the current as it was
immediately before the call. -/
theorem C5_depth1_history {kf kf' : KalmanFilter} {z u : Vec}
    (h : kf.update z u = .ok kf') :
    kf'.last_x = some kf.cur_x ∧ kf'.last_P = some kf.cur_P := by
  have hb := update_base kf z u
  rw [h] at hb
  exact ⟨hb.2.2.2.2.2.2.2.1, hb.2.2.2.2.2.2.2.2⟩

/-- Concrete 4-state, 1-measurement filter on which `update` succeeds. -/
def kfC5 : KalmanFilter :=
  KalmanFilter.init
    [[1, 0, 0, 0], [0, 1, 0, 0], [0, 0, 1, 0], [0, 0, 0, 1]]
    [[0], [0], [0], [0]]
    [[1, 0, 0, 0]]
    [[0, 0, 0, 0], [0, 0, 0, 0], [0, 0, 0, 0], [0, 0, 0, 0]]
    [[1]]
    [0, 0, 0, 0]
    [[1, 0, 0, 0], [0, 0, 0, 0], [0, 0, 0, 0], [0, 0, 0, 0]]

/-- Witness for C5 at a concrete successful call. -/
theorem C5_depth1_history_witness :
    ((kfC5.update [2] [0]).state).last_x = some kfC5.cur_x ∧
    ((kfC5.update [2] [0]).state).last_P = some kfC5.cur_P :=
  @C5_depth1_history kfC5 ((kfC5.update [2] [0]).state) [2] [0]
    (by with_unfolding_all decide)

/-- Claim C6, counterexample: the constructor performs no shape checking —
with B 2×1 against a 1×1 A the shapes are inconsistent, yet construction
succeeds and a filter is produced (no ConfigurationError exists in the
code). -/
theorem C6_cex :
    ¬ shapesConsistent [[1]] [[1], [1]] [[1]] [[1]] [[1]] ∧
    KalmanFilter.init [[1]] [[1], [1]] [[1]] [[1]] [[1]] [0] [[1]] =
      { A := [[1]], B := [[1], [1]], H := [[1]], Q := [[1]], R := [[1]],
        last_x := none, last_P := none, x := none, P := none,
        cur_x := [0], cur_P := [[1]], measureState := none, control := none,
        S := none, K := none, y := none } := by
  constructor
  · with_unfolding_all decide
  · rfl

/-- Claim C6 (amended): construction never validates shapes and always
succeeds, storing the matrices exactly as given; shape mismatches surface
only later, as raised errors inside `update`. -/
theorem C6_no_validation (A B H Q R : Mat) (x0 : Vec) (P0 : Mat) :
    (KalmanFilter.init A B H Q R x0 P0).A = A ∧
    (KalmanFilter.init A B H Q R x0 P0).B = B ∧
    (KalmanFilter.init A B H Q R x0 P0).H = H ∧
    (KalmanFilter.init A B H Q R x0 P0).Q = Q ∧
    (KalmanFilter.init A B H Q R x0 P0).R = R ∧
    (KalmanFilter.init A B H Q R x0 P0).cur_x = x0 ∧
    (KalmanFilter.init A B H Q R x0 P0).cur_P = P0 :=
  ⟨rfl, rfl, rfl, rfl, rfl, rfl, rfl⟩

/-- View a concrete list-of-lists array as a Mathlib matrix. -/
def listToM (r c : Nat) (L : Mat) : Matrix (Fin r) (Fin c) ℚ :=
  Matrix.of fun i j => getE L i.val j.val

/-- View a concrete list as a Mathlib vector. -/
def listToV (n : Nat) (l : Vec) : Fin n → ℚ := fun i => getV l i.val

/-- The 1-D filter of the specification's worked example:
n = m = k = 1, A = 1, B = 0, H = 1, Q = 0.01, R = 0.1, x0 = 0, P0 = 1. -/
def kfC9 : KalmanFilter :=
  KalmanFilter.init [[1]] [[0]] [[1]] [[1 / 100]] [[1 / 10]] [0] [[1]]

/-- Claim C9, counterexample: on the 1-D worked example the single
`advance(z=1)` raises (hardcoded `np.eye(4)` against a 1×1 gain), and the
current covariance stays at its initial value 1 instead of the claimed
P' = 101/1110 ≈ 0.0909. -/
theorem C9_cex :
    (kfC9.update [1] [0]).isOk = false ∧
    (kfC9.update [1] [0]).state.cur_P = [[(1 : ℚ)]] ∧
    [[(1 : ℚ)]] ≠ [[(101 : ℚ) / 1110]] := by
  with_unfolding_all decide

/-- Claim C9 (amended): on the 1-D worked example the intermediate values
match the spec exactly — P_pred = 1.01, S = 1.11, K = 101/111 ≈ 0.9099 —
and the corrected state x' = 101/111 ≈ 0.9099 is installed, but the
posterior covariance statement then raises a shape error (4×4 identity
minus a 1×1 product), so the call fails and cur_P remains 1. -/
theorem C9_1d_example :
    (kfC9.update [1] [0]).state.P = some [[(101 : ℚ) / 100]] ∧
    (kfC9.update [1] [0]).state.S = some [[(111 : ℚ) / 100]] ∧
    (kfC9.update [1] [0]).state.K = some [[(101 : ℚ) / 111]] ∧
    (kfC9.update [1] [0]).state.cur_x = [(101 : ℚ) / 111] ∧
    (kfC9.update [1] [0]).isOk = false ∧
    (kfC9.update [1] [0]).state.cur_P = [[(1 : ℚ)]] := by
  with_unfolding_all decide

/-- A 1-D filter used to refute the general (dimension-independent)
reading of the correction-step claim. -/
def kfC1 : KalmanFilter :=
  KalmanFilter.init [[1]] [[0]] [[1]] [[1 / 100]] [[1 / 10]] [0] [[1]]

/-- Claim C1, counterexample: for a well-formed 1-dimensional filter the
correction step does not set cur_P to (I − K·H)·P_pred = [[101/1110]];
the call raises at the hardcoded `np.eye(4)` and cur_P keeps its pre-call
value. -/
theorem C1_cex :
    (kfC1.update [1] [0]).isOk = false ∧
    (kfC1.update [1] [0]).state.cur_P = [[(1 : ℚ)]] ∧
    [[(1 : ℚ)]] ≠ [[(101 : ℚ) / 1110]] := by
  with_unfolding_all decide

/-- Claim C1 (amended): for a filter whose state dimension is 4 (the only
dimension the hardcoded `np.eye(4)` supports), with shapes consistent and
S nonsingular, `update` returns normally and computes
S = H·P_pred·Hᵀ + R, K = P_pred·Hᵀ·S⁻¹, y = z − H·x_pred,
x' = x_pred + K·y and P' = (I − K·H)·P_pred. -/
theorem C1_correction_step {m k : Nat} {kf : KalmanFilter} {z u : Vec}
    {MA MQ MP : Matrix (Fin 4) (Fin 4) ℚ} {MB : Matrix (Fin 4) (Fin m) ℚ}
    {MH : Matrix (Fin k) (Fin 4) ℚ} {MR : Matrix (Fin k) (Fin k) ℚ}
    {vx : Fin 4 → ℚ} {vz : Fin k → ℚ} {vu : Fin m → ℚ}
    {Pp : Matrix (Fin 4) (Fin 4) ℚ} {MS : Matrix (Fin k) (Fin k) ℚ}
    {MK : Matrix (Fin 4) (Fin k) ℚ} {xp : Fin 4 → ℚ} {vy : Fin k → ℚ}
    {cx : Fin 4 → ℚ}
    (hk : 0 < k)
    (hA : MatRep 4 4 kf.A MA) (hB : MatRep 4 m kf.B MB)
    (hH : MatRep k 4 kf.H MH) (hQ : MatRep 4 4 kf.Q MQ)
    (hR : MatRep k k kf.R MR) (hx : VecRep 4 kf.cur_x vx)
    (hP : MatRep 4 4 kf.cur_P MP) (hz : VecRep k z vz) (hu : VecRep m u vu)
    (hPp : Pp = MA * (MP * MAᵀ) + MQ) (hS : MS = MH * (Pp * MHᵀ) + MR)
    (hdet : MS.det ≠ 0) (hMK : MK = Pp * (MHᵀ * MS⁻¹))
    (hxp : xp = MA.mulVec vx + MB.mulVec vu) (hvy : vy = vz - MH.mulVec xp)
    (hcx : cx = xp + MK.mulVec vy) :
    (kf.update z u).isOk = true ∧
    VecRep 4 (kf.update z u).state.cur_x cx ∧
    MatRep 4 4 (kf.update z u).state.cur_P ((1 - MK * MH) * Pp) ∧
    (∃ LS, (kf.update z u).state.S = some LS ∧ MatRep k k LS MS) ∧
    (∃ LK, (kf.update z u).state.K = some LK ∧ MatRep 4 k LK MK) ∧
    (∃ ly, (kf.update z u).state.y = some ly ∧ VecRep k ly vy) := by
  obtain ⟨lxp, LPp, LS, LK, ly, lcx, LP', heq, rxp, rPp, rS, rK, ry, rcx, rP'⟩ :=
    update_ok4 hk hA hB hH hQ hR hx hP hz hu hPp hS hdet hMK hxp hvy hcx
  rw [heq]
  exact ⟨rfl, rcx, rP', ⟨LS, rfl, rS⟩, ⟨LK, rfl, rK⟩, ⟨ly, rfl, ry⟩⟩

/-- A concrete 4-state, 1-measurement filter for the C1 witness. -/
def kfC1w : KalmanFilter :=
  KalmanFilter.init
    [[1, 0, 0, 0], [0, 1, 0, 0], [0, 0, 1, 0], [0, 0, 0, 1]]
    [[0], [0], [0], [0]]
    [[1, 0, 0, 0]]
    [[0, 0, 0, 0], [0, 0, 0, 0], [0, 0, 0, 0], [0, 0, 0, 0]]
    [[1]]
    [1, 0, 0, 0]
    [[1, 0, 0, 0], [0, 0, 0, 0], [0, 0, 0, 0], [0, 0, 0, 0]]

/-- Witness for the amended C1 at a concrete 4-dimensional filter. -/
theorem C1_correction_step_witness : (kfC1w.update [2] [0]).isOk = true := by
  have hA : MatRep 4 4 kfC1w.A (listToM 4 4 kfC1w.A) := by
    with_unfolding_all decide
  have hB : MatRep 4 1 kfC1w.B (listToM 4 1 kfC1w.B) := by
    with_unfolding_all decide
  have hH : MatRep 1 4 kfC1w.H (listToM 1 4 kfC1w.H) := by
    with_unfolding_all decide
  have hQ : MatRep 4 4 kfC1w.Q (listToM 4 4 kfC1w.Q) := by
    with_unfolding_all decide
  have hR : MatRep 1 1 kfC1w.R (listToM 1 1 kfC1w.R) := by
    with_unfolding_all decide
  have hx : VecRep 4 kfC1w.cur_x (listToV 4 kfC1w.cur_x) := by
    with_unfolding_all decide
  have hP : MatRep 4 4 kfC1w.cur_P (listToM 4 4 kfC1w.cur_P) := by
    with_unfolding_all decide
  have hz : VecRep 1 [2] (listToV 1 [2]) := by with_unfolding_all decide
  have hu : VecRep 1 [0] (listToV 1 [0]) := by with_unfolding_all decide
  have hdet : (listToM 1 4 kfC1w.H *
      ((listToM 4 4 kfC1w.A * (listToM 4 4 kfC1w.cur_P * (listToM 4 4 kfC1w.A)ᵀ) +
        listToM 4 4 kfC1w.Q) * (listToM 1 4 kfC1w.H)ᵀ) +
      listToM 1 1 kfC1w.R).det ≠ 0 := by
    rw [Matrix.det_fin_one]
    with_unfolding_all decide
  exact (C1_correction_step (by norm_num) hA hB hH hQ hR hx hP hz hu rfl rfl
    hdet rfl rfl rfl rfl).1

/-- Claim C2 (confirmed): the predict step computes exactly
x_pred = A·x + B·u and P_pred = A·P·Aᵀ + Q, stores them in the prior
fields `x`/`P`, equals the pure functions `predictX`/`predictP` of exactly
(A, B, Q, x, P, u), and leaves the model matrices untouched. -/
theorem C2_predict_step {n m : Nat} {kf : KalmanFilter} {z u : Vec}
    {MA MQ MP : Matrix (Fin n) (Fin n) ℚ} {MB : Matrix (Fin n) (Fin m) ℚ}
    {vx : Fin n → ℚ} {vu : Fin m → ℚ}
    {Pp : Matrix (Fin n) (Fin n) ℚ} {xp : Fin n → ℚ}
    (hn : 0 < n)
    (hA : MatRep n n kf.A MA) (hB : MatRep n m kf.B MB)
    (hQ : MatRep n n kf.Q MQ) (hx : VecRep n kf.cur_x vx)
    (hP : MatRep n n kf.cur_P MP) (hu : VecRep m u vu)
    (hxp : xp = MA.mulVec vx + MB.mulVec vu)
    (hPp : Pp = MA * (MP * MAᵀ) + MQ) :
    (∃ lxp, (kf.update z u).state.x = some lxp ∧ VecRep n lxp xp) ∧
    (∃ LPp, (kf.update z u).state.P = some LPp ∧ MatRep n n LPp Pp) ∧
    (kf.update z u).state.x = predictX kf.A kf.B kf.cur_x u ∧
    (kf.update z u).state.P = predictP kf.A kf.Q kf.cur_P ∧
    (kf.update z u).state.A = kf.A ∧ (kf.update z u).state.B = kf.B ∧
    (kf.update z u).state.H = kf.H ∧ (kf.update z u).state.Q = kf.Q ∧
    (kf.update z u).state.R = kf.R := by
  obtain ⟨lxp, LPp, h1, h2, h3, h4, h5, h6⟩ :=
    update_predict hn hA hB hQ hx hP hu hxp hPp
  have hb := update_base kf z u
  exact ⟨⟨lxp, h1, h5⟩, ⟨LPp, h2, h6⟩, h3, h4, hb.1, hb.2.1, hb.2.2.1,
    hb.2.2.2.1, hb.2.2.2.2.1⟩

/-- A concrete 1-D filter with a nonzero control for the C2 witness. -/
def kfC2w : KalmanFilter :=
  KalmanFilter.init [[2]] [[3]] [[1]] [[1]] [[1]] [5] [[7]]

/-- Witness for C2 at a concrete input: the prior state field equals the
pure predict function of the model and inputs. -/
theorem C2_predict_step_witness :
    (kfC2w.update [0] [1]).state.x = predictX kfC2w.A kfC2w.B kfC2w.cur_x [1] := by
  have hA : MatRep 1 1 kfC2w.A (listToM 1 1 kfC2w.A) := by
    with_unfolding_all decide
  have hB : MatRep 1 1 kfC2w.B (listToM 1 1 kfC2w.B) := by
    with_unfolding_all decide
  have hQ : MatRep 1 1 kfC2w.Q (listToM 1 1 kfC2w.Q) := by
    with_unfolding_all decide
  have hx : VecRep 1 kfC2w.cur_x (listToV 1 kfC2w.cur_x) := by
    with_unfolding_all decide
  have hP : MatRep 1 1 kfC2w.cur_P (listToM 1 1 kfC2w.cur_P) := by
    with_unfolding_all decide
  have hu : VecRep 1 [1] (listToV 1 [1]) := by with_unfolding_all decide
  exact (C2_predict_step (by norm_num) hA hB hQ hx hP hu rfl rfl).2.2.1

/-- A 1-D filter with H = 0 and R = 0, making S = 0 singular. -/
def kfC3 : KalmanFilter :=
  KalmanFilter.init [[2]] [[0]] [[0]] [[0]] [[0]] [5] [[1]]

/-- Claim C3, counterexample: with S singular the call raises out of
`inv` (the tick is aborted, no NumericalError is caught), and the current
state/covariance keep their pre-call values [5], [[1]] — they are NOT set
to the predicted (x_pred, P_pred) = ([10], [[4]]), which is left only in
the prior fields `x`, `P`. -/
theorem C3_cex :
    (kfC3.update [1] [0]).isOk = false ∧
    (kfC3.update [1] [0]).state.cur_x = [5] ∧
    (kfC3.update [1] [0]).state.x = some [10] ∧
    [(5 : ℚ)] ≠ [(10 : ℚ)] ∧
    (kfC3.update [1] [0]).state.cur_P = [[1]] ∧
    (kfC3.update [1] [0]).state.P = some [[4]] ∧
    [[(1 : ℚ)]] ≠ [[(4 : ℚ)]] := by
  with_unfolding_all decide

/-- Claim C3 (amended): when the innovation covariance S is singular the
call raises (uncaught) at the inversion: the tick IS aborted, the current
state and covariance keep their pre-call values (they do not degrade to
the prediction), the prediction sits only in the prior fields `x`/`P`,
`S` has been assigned, and `K` is untouched. -/
theorem C3_singular_S {n m k : Nat} {kf : KalmanFilter} {z u : Vec}
    {MA MQ MP : Matrix (Fin n) (Fin n) ℚ} {MB : Matrix (Fin n) (Fin m) ℚ}
    {MH : Matrix (Fin k) (Fin n) ℚ} {MR : Matrix (Fin k) (Fin k) ℚ}
    {vx : Fin n → ℚ} {vu : Fin m → ℚ}
    {Pp : Matrix (Fin n) (Fin n) ℚ} {MS : Matrix (Fin k) (Fin k) ℚ}
    {xp : Fin n → ℚ}
    (hn : 0 < n) (hk : 0 < k)
    (hA : MatRep n n kf.A MA) (hB : MatRep n m kf.B MB)
    (hH : MatRep k n kf.H MH) (hQ : MatRep n n kf.Q MQ)
    (hR : MatRep k k kf.R MR) (hx : VecRep n kf.cur_x vx)
    (hP : MatRep n n kf.cur_P MP) (hu : VecRep m u vu)
    (hPp : Pp = MA * (MP * MAᵀ) + MQ) (hS : MS = MH * (Pp * MHᵀ) + MR)
    (hdet : MS.det = 0) (hxp : xp = MA.mulVec vx + MB.mulVec vu) :
    (kf.update z u).isOk = false ∧
    (kf.update z u).state.cur_x = kf.cur_x ∧
    (kf.update z u).state.cur_P = kf.cur_P ∧
    (∃ lxp, (kf.update z u).state.x = some lxp ∧ VecRep n lxp xp) ∧
    (∃ LPp, (kf.update z u).state.P = some LPp ∧ MatRep n n LPp Pp) ∧
    (∃ LS, (kf.update z u).state.S = some LS ∧ MatRep k k LS MS) ∧
    (kf.update z u).state.K = kf.K := by
  obtain ⟨lxp, LPp, LS, heq, rxp, rPp, rS⟩ :=
    update_sing hn hk hA hB hH hQ hR hx hP hu hPp hS hdet hxp
  rw [heq]
  exact ⟨rfl, rfl, rfl, ⟨lxp, rfl, rxp⟩, ⟨LPp, rfl, rPp⟩, ⟨LS, rfl, rS⟩, rfl⟩

/-- A second singular-S filter, for the C3 witness. -/
def kfC3w : KalmanFilter :=
  KalmanFilter.init [[2]] [[0]] [[0]] [[0]] [[0]] [3] [[1]]

/-- Witness for the amended C3 at a concrete singular input. -/
theorem C3_singular_S_witness : (kfC3w.update [1] [0]).isOk = false := by
  have hA : MatRep 1 1 kfC3w.A (listToM 1 1 kfC3w.A) := by
    with_unfolding_all decide
  have hB : MatRep 1 1 kfC3w.B (listToM 1 1 kfC3w.B) := by
    with_unfolding_all decide
  have hH : MatRep 1 1 kfC3w.H (listToM 1 1 kfC3w.H) := by
    with_unfolding_all decide
  have hQ : MatRep 1 1 kfC3w.Q (listToM 1 1 kfC3w.Q) := by
    with_unfolding_all decide
  have hR : MatRep 1 1 kfC3w.R (listToM 1 1 kfC3w.R) := by
    with_unfolding_all decide
  have hx : VecRep 1 kfC3w.cur_x (listToV 1 kfC3w.cur_x) := by
    with_unfolding_all decide
  have hP : MatRep 1 1 kfC3w.cur_P (listToM 1 1 kfC3w.cur_P) := by
    with_unfolding_all decide
  have hu : VecRep 1 [0] (listToV 1 [0]) := by with_unfolding_all decide
  have hdet : (listToM 1 1 kfC3w.H *
      ((listToM 1 1 kfC3w.A * (listToM 1 1 kfC3w.cur_P * (listToM 1 1 kfC3w.A)ᵀ) +
        listToM 1 1 kfC3w.Q) * (listToM 1 1 kfC3w.H)ᵀ) +
      listToM 1 1 kfC3w.R).det = 0 := by
    rw [Matrix.det_fin_one]
    with_unfolding_all decide
  exact (C3_singular_S (by norm_num) (by norm_num) hA hB hH hQ hR hx hP hu
    rfl rfl hdet rfl).1

/-- If the measurement is not broadcast-compatible with the predicted
measurement (length ≠ k, with neither equal to 1), the innovation
statement raises. -/
lemma residY_none_of_badz {H : Mat} {xp z : Vec}
    (h : bdim z.length (nrows H) = none) : residY H xp z = none := by
  unfold residY
  cases hdx : dotMV H xp with
  | none => rfl
  | some hx =>
    have hlen := dotMV_some_length hdx
    simp only [Option.some_bind]
    unfold vecSubB
    rw [hlen, h]

/-- If the control has the wrong length, the prior-state statement
raises inside `np.dot(B, u)`. -/
lemma predictX_none_of_badu {A B : Mat} {x u : Vec}
    (h : ncols B ≠ u.length) : predictX A B x u = none := by
  unfold predictX
  cases hdx : dotMV A x with
  | none => rfl
  | some ax =>
    simp only [Option.some_bind]
    unfold dotMV
    rw [if_neg h]
    rfl

/-- Claim C7 (amended): a measurement whose length is not
broadcast-compatible with k, or a control of the wrong length, makes the
call raise mid-tick — but only after `last_x`/`last_P` have already been
overwritten with the pre-call current state; the current state and
covariance themselves are left unchanged.  No InputError type exists and
no length check runs before the arithmetic. -/
theorem C7_bad_length {kf : KalmanFilter} {z u : Vec}
    (h : bdim z.length (nrows kf.H) = none ∨ ncols kf.B ≠ u.length) :
    (kf.update z u).isOk = false ∧
    (kf.update z u).state.cur_x = kf.cur_x ∧
    (kf.update z u).state.cur_P = kf.cur_P ∧
    (kf.update z u).state.last_x = some kf.cur_x ∧
    (kf.update z u).state.last_P = some kf.cur_P := by
  have hb := update_base kf z u
  have key : (kf.update z u).isOk = false ∧
      (kf.update z u).state.cur_x = kf.cur_x ∧
      (kf.update z u).state.cur_P = kf.cur_P := by
    rcases h with hz | hu
    · have hres : ∀ xpv, residY kf.H xpv z = none := fun xpv =>
        residY_none_of_badz hz
      unfold KalmanFilter.update
      simp only [stepO]
      repeat' split
      all_goals simp_all [StepResult.state, StepResult.isOk]
    · have hpx : predictX kf.A kf.B kf.cur_x u = none :=
        predictX_none_of_badu hu
      unfold KalmanFilter.update
      simp only [stepO]
      repeat' split
      all_goals simp_all [StepResult.state, StepResult.isOk]
  exact ⟨key.1, key.2.1, key.2.2, hb.2.2.2.2.2.2.2.1, hb.2.2.2.2.2.2.2.2⟩

/-- A 1-D filter used to refute C7 as stated. -/
def kfC7 : KalmanFilter :=
  KalmanFilter.init [[1]] [[1]] [[1]] [[1]] [[1]] [7] [[1]]

/-- Claim C7, counterexample: a measurement of length 2 against k = 1 does
not fail before any arithmetic with no mutation — the call runs the whole
predict and correction arithmetic (S = [[3]] is assigned, the broadcast
innovation y = [-6, -5] is computed) and `last_x` has already been
overwritten with the pre-call state, before the raise finally happens. -/
theorem C7_cex :
    (kfC7.update [1, 2] [0]).isOk = false ∧
    (kfC7.update [1, 2] [0]).state.last_x = some [(7 : ℚ)] ∧
    kfC7.last_x = none ∧
    some [(7 : ℚ)] ≠ (none : Option Vec) ∧
    (kfC7.update [1, 2] [0]).state.S = some [[(3 : ℚ)]] ∧
    (kfC7.update [1, 2] [0]).state.y = some [(-6 : ℚ), -5] := by
  with_unfolding_all decide

/-- A filter with a 2-row H, for the C7 witness. -/
def kfC7w : KalmanFilter :=
  KalmanFilter.init [[1]] [[1]] [[1], [1]] [[1]] [[1]] [0] [[1]]

/-- Witness for the amended C7: a length-3 measurement against k = 2. -/
theorem C7_bad_length_witness :
    (kfC7w.update [1, 2, 3] [0]).isOk = false ∧
    (kfC7w.update [1, 2, 3] [0]).state.cur_x = kfC7w.cur_x ∧
    (kfC7w.update [1, 2, 3] [0]).state.cur_P = kfC7w.cur_P ∧
    (kfC7w.update [1, 2, 3] [0]).state.last_x = some kfC7w.cur_x ∧
    (kfC7w.update [1, 2, 3] [0]).state.last_P = some kfC7w.cur_P :=
  C7_bad_length (Or.inl (by with_unfolding_all decide))

/-- Claim C8 (confirmed): one tick of a well-shaped 4-dimensional filter
preserves symmetry of the current covariance exactly, given symmetric Q
and R — on a successful tick because (I − K·H)·P_pred with the exact
optimal gain is symmetric, and on a raising tick because cur_P is never
assigned.  By induction this holds after every call of any sequence. -/
theorem C8_covariance_symmetry {m k : Nat} {kf : KalmanFilter} {z u : Vec}
    {MA MQ MP : Matrix (Fin 4) (Fin 4) ℚ} {MB : Matrix (Fin 4) (Fin m) ℚ}
    {MH : Matrix (Fin k) (Fin 4) ℚ} {MR : Matrix (Fin k) (Fin k) ℚ}
    {vx : Fin 4 → ℚ} {vz : Fin k → ℚ} {vu : Fin m → ℚ}
    (hk : 0 < k)
    (hA : MatRep 4 4 kf.A MA) (hB : MatRep 4 m kf.B MB)
    (hH : MatRep k 4 kf.H MH) (hQ : MatRep 4 4 kf.Q MQ)
    (hR : MatRep k k kf.R MR) (hx : VecRep 4 kf.cur_x vx)
    (hP : MatRep 4 4 kf.cur_P MP) (hz : VecRep k z vz) (hu : VecRep m u vu)
    (hsymP : transposeL kf.cur_P = kf.cur_P)
    (hsymQ : transposeL kf.Q = kf.Q)
    (hsymR : transposeL kf.R = kf.R) :
    transposeL (kf.update z u).state.cur_P = (kf.update z u).state.cur_P := by
  have hMP : MPᵀ = MP := matRep_symm_of hP hsymP
  have hMQ : MQᵀ = MQ := matRep_symm_of hQ hsymQ
  have hMR : MRᵀ = MR := matRep_symm_of hR hsymR
  have hPpT : (MA * (MP * MAᵀ) + MQ)ᵀ = MA * (MP * MAᵀ) + MQ := by
    rw [transpose_add, transpose_mul, transpose_mul, transpose_transpose,
      hMP, hMQ, Matrix.mul_assoc]
  by_cases hdet : (MH * ((MA * (MP * MAᵀ) + MQ) * MHᵀ) + MR).det = 0
  · obtain ⟨lxp, LPp, LS, heq, _, _, _⟩ :=
      update_sing (by norm_num) hk hA hB hH hQ hR hx hP hu rfl rfl hdet rfl
    rw [heq]
    exact hsymP
  · obtain ⟨lxp, LPp, LS, LK, ly, lcx, LP', heq, _, _, _, _, _, _, rP'⟩ :=
      update_ok4 hk hA hB hH hQ hR hx hP hz hu rfl rfl hdet rfl rfl rfl rfl
    rw [heq]
    exact matRep_symm_to_list rP' (corr_sym _ MH MR hPpT hMR)

/-- A concrete symmetric 4-D filter for the C8 witness. -/
def kfC8w : KalmanFilter :=
  KalmanFilter.init
    [[1, 0, 0, 0], [0, 1, 0, 0], [0, 0, 1, 0], [0, 0, 0, 1]]
    [[0], [0], [0], [0]]
    [[1, 0, 0, 0]]
    [[0, 0, 0, 0], [0, 0, 0, 0], [0, 0, 0, 0], [0, 0, 0, 0]]
    [[1]]
    [0, 0, 0, 0]
    [[1, 0, 0, 0], [0, 0, 0, 0], [0, 0, 0, 0], [0, 0, 0, 0]]

/-- Witness for C8 at a concrete symmetric filter. -/
theorem C8_covariance_symmetry_witness :
    transposeL (kfC8w.update [1] [0]).state.cur_P =
      (kfC8w.update [1] [0]).state.cur_P := by
  have hA : MatRep 4 4 kfC8w.A (listToM 4 4 kfC8w.A) := by
    with_unfolding_all decide
  have hB : MatRep 4 1 kfC8w.B (listToM 4 1 kfC8w.B) := by
    with_unfolding_all decide
  have hH : MatRep 1 4 kfC8w.H (listToM 1 4 kfC8w.H) := by
    with_unfolding_all decide
  have hQ : MatRep 4 4 kfC8w.Q (listToM 4 4 kfC8w.Q) := by
    with_unfolding_all decide
  have hR : MatRep 1 1 kfC8w.R (listToM 1 1 kfC8w.R) := by
    with_unfolding_all decide
  have hx : VecRep 4 kfC8w.cur_x (listToV 4 kfC8w.cur_x) := by
    with_unfolding_all decide
  have hP : MatRep 4 4 kfC8w.cur_P (listToM 4 4 kfC8w.cur_P) := by
    with_unfolding_all decide
  have hz : VecRep 1 [1] (listToV 1 [1]) := by with_unfolding_all decide
  have hu : VecRep 1 [0] (listToV 1 [0]) := by with_unfolding_all decide
  exact C8_covariance_symmetry (by norm_num) hA hB hH hQ hR hx hP hz hu
    (by with_unfolding_all decide) (by with_unfolding_all decide)
    (by with_unfolding_all decide)

/-- Claim C10 (confirmed): `update` hardcodes `np.eye(4)` in the
posterior-covariance statement.  With a fully consistent model of state
dimension n and nonsingular S, the call succeeds precisely when n = 4 (in
which case it computes the correction formulas, see C1_correction_step),
and for every n ≠ 4 the call raises a shape error. -/
theorem C10_eye4_hardcoded {n m k : Nat} {kf : KalmanFilter} {z u : Vec}
    {MA MQ MP : Matrix (Fin n) (Fin n) ℚ} {MB : Matrix (Fin n) (Fin m) ℚ}
    {MH : Matrix (Fin k) (Fin n) ℚ} {MR : Matrix (Fin k) (Fin k) ℚ}
    {vx : Fin n → ℚ} {vz : Fin k → ℚ} {vu : Fin m → ℚ}
    {Pp : Matrix (Fin n) (Fin n) ℚ} {MS : Matrix (Fin k) (Fin k) ℚ}
    {MK : Matrix (Fin n) (Fin k) ℚ} {xp : Fin n → ℚ} {vy : Fin k → ℚ}
    {cx : Fin n → ℚ}
    (hn : 0 < n) (hk : 0 < k)
    (hA : MatRep n n kf.A MA) (hB : MatRep n m kf.B MB)
    (hH : MatRep k n kf.H MH) (hQ : MatRep n n kf.Q MQ)
    (hR : MatRep k k kf.R MR) (hx : VecRep n kf.cur_x vx)
    (hP : MatRep n n kf.cur_P MP) (hz : VecRep k z vz) (hu : VecRep m u vu)
    (hPp : Pp = MA * (MP * MAᵀ) + MQ) (hS : MS = MH * (Pp * MHᵀ) + MR)
    (hdet : MS.det ≠ 0) (hMK : MK = Pp * (MHᵀ * MS⁻¹))
    (hxp : xp = MA.mulVec vx + MB.mulVec vu) (hvy : vy = vz - MH.mulVec xp)
    (hcx : cx = xp + MK.mulVec vy) :
    (n = 4 → (kf.update z u).isOk = true) ∧
    (n ≠ 4 → (kf.update z u).isOk = false) := by
  constructor
  · intro h4
    subst h4
    obtain ⟨lxp, LPp, LS, LK, ly, lcx, LP', heq, _⟩ :=
      update_ok4 hk hA hB hH hQ hR hx hP hz hu hPp hS hdet hMK hxp hvy hcx
    rw [heq]
    rfl
  · intro hne
    obtain ⟨lxp, LPp, LS, LK, ly, lcx, LKH, heq, _, rPp, _, _, _, _, rKH⟩ :=
      update_prefix hn hk hA hB hH hQ hR hx hP hz hu hPp hS hdet hMK hxp
        hvy hcx
    rw [heq, final_stepNe4 rKH rPp hn hne]
    rfl

/-- A fully consistent 3-dimensional filter for the C10 witness. -/
def kfC10w : KalmanFilter :=
  KalmanFilter.init
    [[1, 0, 0], [0, 1, 0], [0, 0, 1]]
    [[0], [0], [0]]
    [[1, 0, 0]]
    [[0, 0, 0], [0, 0, 0], [0, 0, 0]]
    [[1]]
    [0, 0, 0]
    [[0, 0, 0], [0, 0, 0], [0, 0, 0]]

/-- Witness for C10: with a consistent 3-dimensional model and
nonsingular S, the call still fails because of the hardcoded 4×4
identity. -/
theorem C10_eye4_hardcoded_witness : (kfC10w.update [1] [0]).isOk = false := by
  have hA : MatRep 3 3 kfC10w.A (listToM 3 3 kfC10w.A) := by
    with_unfolding_all decide
  have hB : MatRep 3 1 kfC10w.B (listToM 3 1 kfC10w.B) := by
    with_unfolding_all decide
  have hH : MatRep 1 3 kfC10w.H (listToM 1 3 kfC10w.H) := by
    with_unfolding_all decide
  have hQ : MatRep 3 3 kfC10w.Q (listToM 3 3 kfC10w.Q) := by
    with_unfolding_all decide
  have hR : MatRep 1 1 kfC10w.R (listToM 1 1 kfC10w.R) := by
    with_unfolding_all decide
  have hx : VecRep 3 kfC10w.cur_x (listToV 3 kfC10w.cur_x) := by
    with_unfolding_all decide
  have hP : MatRep 3 3 kfC10w.cur_P (listToM 3 3 kfC10w.cur_P) := by
    with_unfolding_all decide
  have hz : VecRep 1 [1] (listToV 1 [1]) := by with_unfolding_all decide
  have hu : VecRep 1 [0] (listToV 1 [0]) := by with_unfolding_all decide
  have hdet : (listToM 1 3 kfC10w.H *
      ((listToM 3 3 kfC10w.A * (listToM 3 3 kfC10w.cur_P * (listToM 3 3 kfC10w.A)ᵀ) +
        listToM 3 3 kfC10w.Q) * (listToM 1 3 kfC10w.H)ᵀ) +
      listToM 1 1 kfC10w.R).det ≠ 0 := by
    rw [Matrix.det_fin_one]
    with_unfolding_all decide
  exact (C10_eye4_hardcoded (by norm_num) (by norm_num) hA hB hH hQ hR hx hP
    hz hu rfl rfl hdet rfl rfl rfl rfl).2 (by norm_num)
